import Mathlib

/-!
# Verification of the FileBackedArray extraction engines

Shallow embedding of `src/filebackedarray/H5Sparse.py` (class `H5SparseArray`:
`__init__`, `shape`, `mat_format`, `__getitem__`) together with the helper
functions it calls from `filebackedarray.utils.h5utils` (`_check_indices`,
`_slice_h5_sparse`, `infer_h5_dataset`).  The helper module and the dense
array class are not part of the provided sources, so those definitions are
modelled from the specification (their doc comments say so explicitly); the
code of `H5Sparse.py` is translated line by line.

Machine integers do not overflow in any of the modelled code paths (indices
and pointer offsets are Python ints), so `Nat` indexes and `Int` values are
used directly.  Reads of the backing HDF5 store are made observable through
an explicit `ReadEvent` trace returned next to each result.
-/

/-- A value stored in the matrix.  The scalar type of the backing dataset is
abstracted to `Int`; no claim depends on the concrete scalar type. -/
abbrev Scalar := Int

/-- A single axis selector as received by `__getitem__`: either Python's
`None` or a selection already expanded to the concrete list of indices it
denotes (a `slice`/`range`/explicit list all denote such a list). -/
inductive PySel where
  | pyNone : PySel
  | pyIdx : List Nat → PySel
deriving DecidableEq, Repr

/-- The errors the sparse array code can raise.  Each constructor corresponds
to one `raise` site (or, for `indexOutOfBounds`, to the failure of the
spec-modelled index normalizer). -/
inductive H5Err where
  /-- Error `ValueError("File does not contain a sparse matrix")`, raised by
  `__init__` when the inferred format is neither csr nor csc. -/
  | unsupportedLayout : H5Err
  /-- Error `ValueError("Arguments must contain one slice")`, raised by
  `__getitem__` when `len(args) == 0`. -/
  | emptyArgs : H5Err
  /-- Error `ValueError("contains too many slices")` at line 85 of `H5Sparse.py`. -/
  | tooManySlices : H5Err
  /-- Failure of `_check_indices` on an index outside `[0, axis_extent)`
  (modelled from the spec's `IndexOutOfBounds`). -/
  | indexOutOfBounds : H5Err
  /-- Failure of `_check_indices` when handed Python `None` (a `None` in the
  first selector position is a type error in the source). -/
  | noneSelector : H5Err
  /-- Error `Exception("unknown matrix type in H5.")` at line 101 of `H5Sparse.py`. -/
  | unknownMatrixType : H5Err
deriving DecidableEq, Repr

/-- A physical read issued against the backing HDF5 store. -/
inductive ReadEvent where
  /-- One ranged read covering `indptr[lo .. hi]` (inclusive bounds). -/
  | indptrRead (lo hi : Nat) : ReadEvent
  /-- One ranged read of `data[lo .. hi)` together with `indices[lo .. hi)`
  (the data/indices pair is fetched over the same element range). -/
  | dataIndicesRead (lo hi : Nat) : ReadEvent
deriving DecidableEq, Repr

/-- Compressed-sparse storage (and, equally, a reconstructed compressed
block): the three parallel arrays `data`, `indices`, `indptr` of a CSR/CSC
matrix, plus the extent of the primary (compressed) axis and of the secondary
axis.  For a `csr_matrix` the primary axis is rows; for a `csc_matrix` it is
columns. -/
structure CSStorage where
  data : List Scalar
  indices : List Nat
  indptr : List Nat
  nprimary : Nat
  nsecondary : Nat
deriving DecidableEq, Repr

/-- The range `seg l lo hi` is the element range `l[lo .. hi)`, the unit of a ranged
physical read. -/
def seg {α : Type} (l : List α) (lo hi : Nat) : List α :=
  (l.drop lo).take (hi - lo)

/-- The `indptr` entry at position `k` (0 when out of range; validity keeps
all accesses in range). -/
def ipt (st : CSStorage) (k : Nat) : Nat :=
  st.indptr.getD k 0

/-- The stored values of primary-axis element `p`: `data[indptr[p] .. indptr[p+1])`. -/
def rowData (st : CSStorage) (p : Nat) : List Scalar :=
  seg st.data (ipt st p) (ipt st (p + 1))

/-- The secondary-axis positions of the stored entries of primary-axis
element `p`: `indices[indptr[p] .. indptr[p+1])`. -/
def rowIdx (st : CSStorage) (p : Nat) : List Nat :=
  seg st.indices (ipt st p) (ipt st (p + 1))

/-- The stored (secondary position, value) entries of primary-axis element `p`. -/
def rowEntries (st : CSStorage) (p : Nat) : List (Nat × Scalar) :=
  (rowIdx st p).zip (rowData st p)

/-- The dense (logical) value at primary position `p`, secondary position `q`:
the scatter of the stored entries of `p` into a zero-initialized row (entries
sharing a position accumulate, matching the backing library's densification
of non-canonical storage; for canonical storage at most one entry matches). -/
def csValue (st : CSStorage) (p q : Nat) : Scalar :=
  ((rowEntries st p).map (fun e => if e.1 = q then e.2 else 0)).sum

/-- Structural well-formedness of compressed-sparse storage: `indptr` has one
entry per primary element plus one, starts at 0, is non-decreasing, ends at
the number of stored entries; `indices` is parallel to `data` and holds
secondary positions in range. -/
def validCS (st : CSStorage) : Prop :=
  st.indptr.length = st.nprimary + 1 ∧
  ipt st 0 = 0 ∧
  (∀ k, k < st.nprimary → ipt st k ≤ ipt st (k + 1)) ∧
  ipt st st.nprimary = st.data.length ∧
  st.indices.length = st.data.length ∧
  (∀ i ∈ st.indices, i < st.nsecondary)

instance (st : CSStorage) : Decidable (validCS st) := by
  unfold validCS; infer_instance

/-- Modelled from the spec (§4.3 step 2): partition an ordered primary
selection into maximal contiguous runs, each represented as an inclusive pair
`(lo, hi)`.  `runsGo lo hi rest` extends the open run `[lo, hi]` while the
next index is exactly `hi + 1`. -/
def runsGo : Nat → Nat → List Nat → List (Nat × Nat)
  | lo, hi, [] => [(lo, hi)]
  | lo, hi, q :: rest =>
    if q = hi + 1 then runsGo lo q rest else (lo, hi) :: runsGo q q rest

/-- Maximal contiguous runs of a primary selection. -/
def runs : List Nat → List (Nat × Nat)
  | [] => []
  | p :: rest => runsGo p p rest

/-- Expansion of an inclusive run `(lo, hi)` back into its indices. -/
def runExpand (r : Nat × Nat) : List Nat :=
  List.range' r.1 (r.2 + 1 - r.1)

/-- Concatenated expansion of a run list. -/
def runsFlat (rs : List (Nat × Nat)) : List Nat :=
  rs.flatMap runExpand

/-- Rebuilt `indptr` accumulating the given per-selected-element lengths,
starting at 0 (spec §4.3 step 2). -/
def accIndptr (lens : List Nat) : List Nat :=
  (List.range (lens.length + 1)).map (fun a => ((lens.take a).sum))

/-- Modelled from the spec: `_slice_h5_sparse(dataset, info, indices)` from
`filebackedarray.utils.h5utils` (not under the provided sources).  Per spec
§4.3 steps 1–2: partition the primary selection `P` into maximal contiguous
runs; for each run `[lo, hi]` issue one physical read of
`indptr[lo .. hi+1]`, then one physical read of the `data`/`indices` range it
delimits; concatenate the run results in `P`'s order and rebuild a fresh
`indptr` by accumulating per-selected-element lengths starting at 0.  Returns
the reconstructed compressed block together with the trace of physical
reads. -/
def slice_h5_sparse (st : CSStorage) (P : List Nat) : CSStorage × List ReadEvent :=
  let rs := runs P
  let evs := rs.flatMap (fun r =>
    [ReadEvent.indptrRead r.1 (r.2 + 1),
     ReadEvent.dataIndicesRead (ipt st r.1) (ipt st (r.2 + 1))])
  let lens := P.map (fun p => ipt st (p + 1) - ipt st p)
  ({ data := rs.flatMap (fun r => seg st.data (ipt st r.1) (ipt st (r.2 + 1))),
     indices := rs.flatMap (fun r => seg st.indices (ipt st r.1) (ipt st (r.2 + 1))),
     indptr := accIndptr lens,
     nprimary := P.length,
     nsecondary := st.nsecondary }, evs)

/-- The output position of secondary index `x` in the selection `S` (the
position of its first occurrence; selections are deduplicated by the
normalizer, so the first occurrence is the occurrence). -/
def posIn : List Nat → Nat → Nat
  | [], _ => 0
  | s :: rest, x => if s = x then 0 else posIn rest x + 1

/-- Secondary filtering of one primary element (spec §4.3 step 3): keep only
entries whose secondary position is a member of `S` and remap each kept entry
to `S`'s output position. -/
def filterRow (S : List Nat) (entries : List (Nat × Scalar)) : List (Nat × Scalar) :=
  (entries.filter (fun e => decide (e.1 ∈ S))).map (fun e => (posIn S e.1, e.2))

/-- Modelled from the spec (§4.3 step 3): the secondary-axis filter applied
to a reconstructed compressed block — the semantics of the backing sparse
library's `mat[:, colIndices]` (csr) and `mat[rowIndices, :]` (csc).  A
structural filter + reindex over the in-memory block; no physical read. -/
def secondaryFilter (blk : CSStorage) (S : List Nat) : CSStorage :=
  let rows := (List.range blk.nprimary).map (fun a => filterRow S (rowEntries blk a))
  { data := rows.flatMap (fun r => r.map Prod.snd),
    indices := rows.flatMap (fun r => r.map Prod.fst),
    indptr := accIndptr (rows.map List.length),
    nprimary := blk.nprimary,
    nsecondary := S.length }

/-- The result of `__getitem__`: a compressed block together with the
orientation of its primary axis (`byCol = true` for a csc result, whose
primary elements are columns). -/
structure SpResult where
  block : CSStorage
  byCol : Bool
deriving DecidableEq, Repr

/-- Row extent of a sparse extraction result. -/
def SpResult.rows (r : SpResult) : Nat :=
  if r.byCol then r.block.nsecondary else r.block.nprimary

/-- Column extent of a sparse extraction result. -/
def SpResult.cols (r : SpResult) : Nat :=
  if r.byCol then r.block.nprimary else r.block.nsecondary

/-- Densified value of a sparse extraction result at (row `i`, column `j`):
scatter of the block's entries into a zero-initialized dense buffer of the
output shape (spec §4.3 step 4). -/
def SpResult.valueAt (r : SpResult) (i j : Nat) : Scalar :=
  if r.byCol then csValue r.block j i else csValue r.block i j

/-- The `H5SparseArray` object: the backing compressed triple plus the
dataset-info fields recorded at construction (`_dataset_info.format` and
`_dataset_info.shape`). -/
structure H5SparseArray where
  store : CSStorage
  dsFormat : String
  dsShape : Nat × Nat
deriving DecidableEq, Repr

/-- The `shape` property: returns `self._dataset_info.shape`. -/
def H5SparseArray.shape (A : H5SparseArray) : Nat × Nat :=
  A.dsShape

/-- The `mat_format` property: returns `self._dataset_info.format`. -/
def H5SparseArray.mat_format (A : H5SparseArray) : String :=
  A.dsFormat

/-- Consistency of an `H5SparseArray` with its recorded dataset info: the
storage is structurally valid and the primary/secondary extents agree with
the logical `(rows, cols)` shape under the recorded format. -/
def wfSparse (A : H5SparseArray) : Prop :=
  validCS A.store ∧
  ((A.dsFormat = "csr_matrix" ∧ A.store.nprimary = A.dsShape.1 ∧
      A.store.nsecondary = A.dsShape.2) ∨
   (A.dsFormat = "csc_matrix" ∧ A.store.nprimary = A.dsShape.2 ∧
      A.store.nsecondary = A.dsShape.1))

instance (A : H5SparseArray) : Decidable (wfSparse A) := by
  unfold wfSparse; infer_instance

/-- The result of `infer_h5_dataset` (from `filebackedarray.utils.h5utils`,
not under the provided sources), modelled from the spec §4.1: the inferred
format tag, logical shape and the physical arrays backing the dataset. -/
structure H5DatasetInfo where
  format : String
  shape : Nat × Nat
  store : CSStorage
deriving DecidableEq, Repr

/-- Constructor `H5SparseArray.__init__` (lines 24–40 of `H5Sparse.py`): record the
inferred dataset info, and raise
`ValueError("File does not contain a sparse matrix")` when the inferred
format is not in `["csr_matrix", "csc_matrix"]`. -/
def h5sparse_init (info : H5DatasetInfo) : Except H5Err H5SparseArray :=
  if info.format ∈ (["csr_matrix", "csc_matrix"] : List String) then
    Except.ok { store := info.store, dsFormat := info.format, dsShape := info.shape }
  else
    Except.error H5Err.unsupportedLayout

/-- Modelled from the spec: `_check_indices` from
`filebackedarray.utils.h5utils` (not under the provided sources).  Per spec
§4.2 the index normalizer validates a selector against the axis extent,
failing with `IndexOutOfBounds` if any index falls outside
`[0, axis_extent)`; handing it Python `None` is a failure as well. -/
def check_indices (s : PySel) (extent : Nat) : Except H5Err (List Nat) :=
  match s with
  | PySel.pyNone => Except.error H5Err.noneSelector
  | PySel.pyIdx l =>
    if l.all (fun i => decide (i < extent)) then Except.ok l
    else Except.error H5Err.indexOutOfBounds

/-- Lines 79–85 of `H5Sparse.py`, computing `colIndices`:

```
colIndices = None
if len(args) > 1:
    if args[1] is not None:
        colIndices = _check_indices(args[1])
elif len(args) > 2:
    raise ValueError("contains too many slices")
```

The `elif` branch is translated exactly as written: it is tested only when
`len(args) > 1` is false, so it can never fire. -/
def colIndicesStep (args : List PySel) (extent : Nat) : Except H5Err (Option (List Nat)) :=
  if args.length > 1 then
    match args.getD 1 PySel.pyNone with
    | PySel.pyNone => Except.ok none
    | PySel.pyIdx l =>
      match check_indices (PySel.pyIdx l) extent with
      | Except.ok v => Except.ok (some v)
      | Except.error e => Except.error e
  else if args.length > 2 then
    Except.error H5Err.tooManySlices
  else
    Except.ok none

/-- Subscript `H5SparseArray.__getitem__` (lines 71–101 of `H5Sparse.py`), returning
the result (or the raised error) together with the trace of physical reads
issued against the backing store.  The csc branch's
`colIndices = slice(0)` substitutes the empty slice `[:0]`, whose expanded
index list is `[]`. -/
def getitem (A : H5SparseArray) (args : List PySel) :
    Except H5Err SpResult × List ReadEvent :=
  if args.length = 0 then
    (Except.error H5Err.emptyArgs, [])
  else
    match check_indices (args.getD 0 PySel.pyNone) A.shape.1 with
    | Except.error e => (Except.error e, [])
    | Except.ok rIdx =>
      match colIndicesStep args A.shape.2 with
      | Except.error e => (Except.error e, [])
      | Except.ok cIdx =>
        if A.mat_format = "csr_matrix" then
          let mt := slice_h5_sparse A.store rIdx
          match cIdx with
          | some s => (Except.ok { block := secondaryFilter mt.1 s, byCol := false }, mt.2)
          | none => (Except.ok { block := mt.1, byCol := false }, mt.2)
        else if A.mat_format = "csc_matrix" then
          let cI := cIdx.getD []
          let mt := slice_h5_sparse A.store cI
          (Except.ok { block := secondaryFilter mt.1 rIdx, byCol := true }, mt.2)
        else
          (Except.error H5Err.unknownMatrixType, [])

instance exceptDecEq {ε α : Type} [DecidableEq ε] [DecidableEq α] :
    DecidableEq (Except ε α) := fun x y =>
  match x, y with
  | Except.ok a, Except.ok b =>
    if h : a = b then isTrue (by rw [h])
    else isFalse (by intro hc; injection hc; contradiction)
  | Except.ok _, Except.error _ => isFalse (by intro hc; cases hc)
  | Except.error _, Except.ok _ => isFalse (by intro hc; cases hc)
  | Except.error e, Except.error f =>
    if h : e = f then isTrue (by rw [h])
    else isFalse (by intro hc; injection hc; contradiction)

/-- The dense extraction of the same logical array, written from the spec's
words (§8 first property): the logical value of a compressed-sparse array at
`(i, j)` is the densified stored value, reading rows as primary for csr and
columns as primary for csc. -/
def logicalValue (A : H5SparseArray) (i j : Nat) : Scalar :=
  if A.dsFormat = "csr_matrix" then csValue A.store i j else csValue A.store j i

/-- Reference dense extraction over `(P, S)` of the logical array
(spec §8: the dense engine's result on the same logical array). -/
def extract_dense_ref (A : H5SparseArray) (P S : List Nat) : List (List Scalar) :=
  P.map (fun i => S.map (fun j => logicalValue A i j))

/-- Number of physical read pairs in a trace (each pair opens with its
`indptr` range read). -/
def countReadPairs (tr : List ReadEvent) : Nat :=
  (tr.filter (fun e => match e with
    | ReadEvent.indptrRead _ _ => true
    | _ => false)).length

/-! ## List-level helper lemmas -/

theorem seg_split {α : Type} (l : List α) {a b c : Nat} (hab : a ≤ b) (hbc : b ≤ c) :
    seg l a c = seg l a b ++ seg l b c := by
  unfold seg
  have h1 : c - a = (b - a) + (c - b) := by omega
  rw [h1, List.take_add]
  congr 1
  rw [List.drop_drop]
  congr 2
  omega

theorem seg_length {α : Type} (l : List α) {lo hi : Nat} (h : hi ≤ l.length) :
    (seg l lo hi).length = hi - lo := by
  unfold seg
  rw [List.length_take, List.length_drop]
  omega

theorem runsGo_flat : ∀ (rest : List Nat) (lo hi : Nat), lo ≤ hi →
    runsFlat (runsGo lo hi rest) = List.range' lo (hi + 1 - lo) ++ rest := by
  intro rest
  induction rest with
  | nil =>
    intro lo hi _
    simp [runsGo, runsFlat, runExpand]
  | cons q rest ih =>
    intro lo hi hlh
    unfold runsGo
    by_cases hq : q = hi + 1
    · rw [if_pos hq, ih lo q (by omega), hq]
      have h1 : hi + 1 + 1 - lo = (hi + 1 - lo) + 1 := by omega
      rw [h1, List.range'_1_concat]
      have h2 : lo + (hi + 1 - lo) = hi + 1 := by omega
      simp [h2]
    · rw [if_neg hq]
      unfold runsFlat at *
      rw [List.flatMap_cons, ih q q (le_refl q)]
      have h2 : q + 1 - q = 1 := by omega
      simp [runExpand, h2, List.range'_one]

theorem runs_flat (P : List Nat) : runsFlat (runs P) = P := by
  cases P with
  | nil => rfl
  | cons p rest =>
    rw [runs, runsGo_flat rest p p (le_refl p)]
    have h : p + 1 - p = 1 := by omega
    simp [h, List.range'_one]

theorem runsGo_fst_le_snd : ∀ (rest : List Nat) (lo hi : Nat), lo ≤ hi →
    ∀ r ∈ runsGo lo hi rest, r.1 ≤ r.2 := by
  intro rest
  induction rest with
  | nil =>
    intro lo hi hlh r hr
    simp [runsGo] at hr
    simp [hr, hlh]
  | cons q rest ih =>
    intro lo hi hlh r hr
    unfold runsGo at hr
    by_cases hq : q = hi + 1
    · rw [if_pos hq] at hr
      exact ih lo q (by omega) r hr
    · rw [if_neg hq, List.mem_cons] at hr
      rcases hr with hr | hr
      · simp [hr, hlh]
      · exact ih q q (le_refl q) r hr

theorem runs_fst_le_snd (P : List Nat) : ∀ r ∈ runs P, r.1 ≤ r.2 := by
  cases P with
  | nil => intro r hr; simp [runs] at hr
  | cons p rest => exact runsGo_fst_le_snd rest p p (le_refl p)

theorem runsGo_length : ∀ (rest : List Nat) (lo hi : Nat),
    (runsGo lo hi rest).length ≤ rest.length + 1 := by
  intro rest
  induction rest with
  | nil => intro lo hi; simp [runsGo]
  | cons q rest ih =>
    intro lo hi
    unfold runsGo
    by_cases hq : q = hi + 1
    · rw [if_pos hq]
      have := ih lo q
      simp only [List.length_cons]
      omega
    · rw [if_neg hq]
      have := ih q q
      simp only [List.length_cons]
      omega

theorem runs_length_le (P : List Nat) : (runs P).length ≤ P.length := by
  cases P with
  | nil => simp [runs]
  | cons p rest =>
    have := runsGo_length rest p p
    simpa [runs] using this

theorem runsGo_range' : ∀ (n lo hi : Nat),
    runsGo lo hi (List.range' (hi + 1) n) = [(lo, hi + n)] := by
  intro n
  induction n with
  | zero => intro lo hi; simp [runsGo]
  | succ m ih =>
    intro lo hi
    rw [List.range'_succ]
    unfold runsGo
    rw [if_pos rfl]
    rw [ih lo (hi + 1)]
    have h2 : hi + 1 + m = hi + (m + 1) := by omega
    rw [h2]

theorem runs_contiguous (lo n : Nat) (hn : 0 < n) :
    runs (List.range' lo n) = [(lo, lo + n - 1)] := by
  cases n with
  | zero => omega
  | succ m =>
    rw [List.range'_succ, runs, runsGo_range']
    have h : lo + (m + 1) - 1 = lo + m := by omega
    rw [h]

theorem accIndptr_length (lens : List Nat) :
    (accIndptr lens).length = lens.length + 1 := by
  simp [accIndptr]

theorem accIndptr_getD (lens : List Nat) (k : Nat) (hk : k ≤ lens.length) :
    (accIndptr lens).getD k 0 = (lens.take k).sum := by
  have hlt : k < (accIndptr lens).length := by rw [accIndptr_length]; omega
  rw [List.getD_eq_getElem _ _ hlt]
  simp [accIndptr]

/-! ## Pointer-array facts from validity -/

theorem ipt_mono (st : CSStorage) (hv : validCS st) {i j : Nat}
    (hij : i ≤ j) (hj : j ≤ st.nprimary) : ipt st i ≤ ipt st j := by
  obtain ⟨-, -, hstep, -, -, -⟩ := hv
  induction j with
  | zero =>
    have h0 : i = 0 := by omega
    simp [h0]
  | succ m ih =>
    rcases Nat.lt_or_ge i (m + 1) with h | h
    · have h1 : ipt st i ≤ ipt st m := ih (by omega) (by omega)
      have h2 : ipt st m ≤ ipt st (m + 1) := hstep m (by omega)
      omega
    · have : i = m + 1 := by omega
      simp [this]

theorem ipt_le_data_length (st : CSStorage) (hv : validCS st) {p : Nat}
    (hp : p ≤ st.nprimary) : ipt st p ≤ st.data.length := by
  have h1 : ipt st p ≤ ipt st st.nprimary := ipt_mono st hv hp (le_refl _)
  have h2 := hv.2.2.2.1
  omega

/-! ## The run-based read of a contiguous range of primary elements equals
the concatenation of the per-element segments -/

theorem seg_run {α : Type} (st : CSStorage) (hv : validCS st) (l : List α) :
    ∀ (n lo : Nat), lo + n ≤ st.nprimary →
    seg l (ipt st lo) (ipt st (lo + n)) =
      (List.range' lo n).flatMap (fun p => seg l (ipt st p) (ipt st (p + 1))) := by
  intro n
  induction n with
  | zero =>
    intro lo _
    simp [seg]
  | succ m ih =>
    intro lo hlo
    rw [List.range'_succ, List.flatMap_cons]
    have h1 : ipt st lo ≤ ipt st (lo + 1) :=
      ipt_mono st hv (by omega) (by omega)
    have h2 : ipt st (lo + 1) ≤ ipt st (lo + (m + 1)) :=
      ipt_mono st hv (by omega) (by omega)
    rw [seg_split l h1 h2]
    congr 1
    have h3 : lo + (m + 1) = (lo + 1) + m := by omega
    rw [h3, ih (lo + 1) (by omega)]

theorem slice_data_flat {α : Type} (st : CSStorage) (hv : validCS st) (P : List Nat)
    (hP : ∀ p ∈ P, p < st.nprimary) (l : List α) :
    (runs P).flatMap (fun r => seg l (ipt st r.1) (ipt st (r.2 + 1))) =
      P.flatMap (fun p => seg l (ipt st p) (ipt st (p + 1))) := by
  have hcongr : ∀ r ∈ runs P,
      seg l (ipt st r.1) (ipt st (r.2 + 1)) =
        (runExpand r).flatMap (fun p => seg l (ipt st p) (ipt st (p + 1))) := by
    intro r hr
    have hle : r.1 ≤ r.2 := runs_fst_le_snd P r hr
    have hmem : ∀ x ∈ runExpand r, x ∈ P := by
      intro x hx
      rw [← runs_flat P]
      unfold runsFlat
      exact List.mem_flatMap.2 ⟨r, hr, hx⟩
    have hsnd : r.2 < st.nprimary := by
      apply hP
      apply hmem
      unfold runExpand
      have h1 : r.2 + 1 - r.1 = (r.2 - r.1) + 1 := by omega
      have h2 : r.1 + (r.2 - r.1) = r.2 := by omega
      rw [h1, List.range'_1_concat, h2]
      exact List.mem_append_right _ (List.mem_singleton.2 rfl)
    have hexp : runExpand r = List.range' r.1 ((r.2 + 1) - r.1) := rfl
    have harg : r.1 + ((r.2 + 1) - r.1) = r.2 + 1 := by omega
    rw [hexp, ← seg_run st hv l ((r.2 + 1) - r.1) r.1 (by omega), harg]
  rw [List.flatMap_congr hcongr, ← List.flatMap_assoc]
  have : (runs P).flatMap runExpand = P := runs_flat P
  unfold runsFlat at this
  rw [this]

/-! ## Extracting one row back out of a flattened list of rows -/

theorem seg_flatten {α : Type} :
    ∀ (rows : List (List α)) (a : Nat), a < rows.length →
    seg rows.flatten (((rows.map List.length).take a).sum)
        (((rows.map List.length).take (a + 1)).sum) = rows.getD a [] := by
  intro rows
  induction rows with
  | nil => intro a ha; simp at ha
  | cons r rest ih =>
    intro a ha
    cases a with
    | zero =>
      simp only [List.map_cons, List.take_zero, List.sum_nil, List.take_succ_cons,
        List.take_zero, List.sum_cons, List.sum_nil, List.flatten_cons, List.getD_cons_zero]
      unfold seg
      rw [List.drop_zero, Nat.add_zero, Nat.sub_zero, List.take_left]
    | succ a' =>
      simp only [List.map_cons, List.take_succ_cons, List.sum_cons, List.flatten_cons,
        List.getD_cons_succ]
      unfold seg
      have hd : (r ++ rest.flatten).drop (r.length + ((rest.map List.length).take a').sum) =
          rest.flatten.drop (((rest.map List.length).take a').sum) := by
        simp [List.drop_append]
      rw [hd]
      have hs : r.length + ((rest.map List.length).take (a' + 1)).sum -
          (r.length + ((rest.map List.length).take a').sum) =
          ((rest.map List.length).take (a' + 1)).sum -
            ((rest.map List.length).take a').sum := by omega
      rw [hs]
      exact ih a' (by simpa using ha)

/-! ## Access into mapped lists -/

theorem getD_map_lt {α β : Type} (l : List α) (f : α → β) (d : β) (d' : α) (a : Nat)
    (h : a < l.length) : (l.map f).getD a d = f (l.getD a d') := by
  rw [List.getD_eq_getElem _ _ (by simpa using h), List.getElem_map,
    List.getD_eq_getElem _ _ h]

theorem getD_range_lt (n a : Nat) (h : a < n) : (List.range n).getD a 0 = a := by
  rw [List.getD_eq_getElem _ _ (by simpa using h)]
  simp

/-! ## Rows of the reconstructed block are exactly the selected rows -/

theorem slice_lens_data (st : CSStorage) (hv : validCS st) (P : List Nat)
    (hP : ∀ p ∈ P, p < st.nprimary) :
    P.map (fun p => ipt st (p + 1) - ipt st p) =
      (P.map (rowData st)).map List.length := by
  rw [List.map_map]
  apply List.map_congr_left
  intro p hp
  have hle : ipt st (p + 1) ≤ st.data.length :=
    ipt_le_data_length st hv (by have := hP p hp; omega)
  simp [Function.comp, rowData, seg_length st.data hle]

theorem slice_lens_idx (st : CSStorage) (hv : validCS st) (P : List Nat)
    (hP : ∀ p ∈ P, p < st.nprimary) :
    P.map (fun p => ipt st (p + 1) - ipt st p) =
      (P.map (rowIdx st)).map List.length := by
  rw [List.map_map]
  apply List.map_congr_left
  intro p hp
  have hle : ipt st (p + 1) ≤ st.indices.length := by
    rw [hv.2.2.2.2.1]
    exact ipt_le_data_length st hv (by have := hP p hp; omega)
  simp [Function.comp, rowIdx, seg_length st.indices hle]

theorem slice_ipt (st : CSStorage) (P : List Nat) (k : Nat) (hk : k ≤ P.length) :
    ipt (slice_h5_sparse st P).1 k =
      (((P.map (fun p => ipt st (p + 1) - ipt st p)).take k).sum) := by
  have h : (slice_h5_sparse st P).1.indptr =
      accIndptr (P.map (fun p => ipt st (p + 1) - ipt st p)) := rfl
  show (slice_h5_sparse st P).1.indptr.getD k 0 = _
  rw [h, accIndptr_getD _ k (by simpa using hk)]

theorem slice_rowData (st : CSStorage) (hv : validCS st) (P : List Nat)
    (hP : ∀ p ∈ P, p < st.nprimary) (a : Nat) (ha : a < P.length) :
    rowData (slice_h5_sparse st P).1 a = rowData st (P.getD a 0) := by
  unfold rowData
  rw [slice_ipt st P a (by omega), slice_ipt st P (a + 1) (by omega)]
  have hdata : (slice_h5_sparse st P).1.data = (P.map (rowData st)).flatten := by
    show (runs P).flatMap (fun r => seg st.data (ipt st r.1) (ipt st (r.2 + 1))) = _
    rw [slice_data_flat st hv P hP st.data, List.flatMap_def]
    rfl
  rw [hdata, slice_lens_data st hv P hP]
  rw [seg_flatten (P.map (rowData st)) a (by simpa using ha)]
  exact getD_map_lt P (rowData st) [] 0 a ha

theorem slice_rowIdx (st : CSStorage) (hv : validCS st) (P : List Nat)
    (hP : ∀ p ∈ P, p < st.nprimary) (a : Nat) (ha : a < P.length) :
    rowIdx (slice_h5_sparse st P).1 a = rowIdx st (P.getD a 0) := by
  unfold rowIdx
  rw [slice_ipt st P a (by omega), slice_ipt st P (a + 1) (by omega)]
  have hidx : (slice_h5_sparse st P).1.indices = (P.map (rowIdx st)).flatten := by
    show (runs P).flatMap (fun r => seg st.indices (ipt st r.1) (ipt st (r.2 + 1))) = _
    rw [slice_data_flat st hv P hP st.indices, List.flatMap_def]
    rfl
  rw [hidx, slice_lens_idx st hv P hP]
  rw [seg_flatten (P.map (rowIdx st)) a (by simpa using ha)]
  exact getD_map_lt P (rowIdx st) [] 0 a ha

theorem slice_rowEntries (st : CSStorage) (hv : validCS st) (P : List Nat)
    (hP : ∀ p ∈ P, p < st.nprimary) (a : Nat) (ha : a < P.length) :
    rowEntries (slice_h5_sparse st P).1 a = rowEntries st (P.getD a 0) := by
  unfold rowEntries
  rw [slice_rowData st hv P hP a ha, slice_rowIdx st hv P hP a ha]

/-! ## Rows of the secondary-filtered block -/

theorem map_map_length {β γ : Type} (rs : List (List β)) (g : β → γ) :
    (rs.map (fun r => r.map g)).map List.length = rs.map List.length := by
  rw [List.map_map]
  apply List.map_congr_left
  intro r _
  simp [Function.comp]

theorem filter_rowData (blk : CSStorage) (S : List Nat) (a : Nat)
    (ha : a < blk.nprimary) :
    rowData (secondaryFilter blk S) a =
      (filterRow S (rowEntries blk a)).map Prod.snd := by
  unfold rowData secondaryFilter
  simp only
  set rows := (List.range blk.nprimary).map (fun i => filterRow S (rowEntries blk i)) with hrows
  have hlen : rows.length = blk.nprimary := by simp [hrows]
  have hmaplen : rows.map List.length = (rows.map (fun r => r.map Prod.snd)).map List.length :=
    (map_map_length rows Prod.snd).symm
  have hipt : ∀ k, k ≤ rows.length →
      (accIndptr (rows.map List.length)).getD k 0 = (((rows.map List.length).take k).sum) := by
    intro k hk
    rw [accIndptr_getD _ k (by simpa using hk)]
  show seg (rows.flatMap (fun r => r.map Prod.snd))
      ((accIndptr (rows.map List.length)).getD a 0)
      ((accIndptr (rows.map List.length)).getD (a + 1) 0) = _
  rw [hipt a (by omega), hipt (a + 1) (by omega), List.flatMap_def, hmaplen,
    seg_flatten (rows.map (fun r => r.map Prod.snd)) a (by simpa using (by omega : a < rows.length))]
  rw [getD_map_lt rows (fun r => r.map Prod.snd) [] [] a (by omega)]
  rw [hrows, getD_map_lt _ _ [] 0 a (by simpa using ha), getD_range_lt _ a ha]

theorem filter_rowIdx (blk : CSStorage) (S : List Nat) (a : Nat)
    (ha : a < blk.nprimary) :
    rowIdx (secondaryFilter blk S) a =
      (filterRow S (rowEntries blk a)).map Prod.fst := by
  unfold rowIdx secondaryFilter
  simp only
  set rows := (List.range blk.nprimary).map (fun i => filterRow S (rowEntries blk i)) with hrows
  have hlen : rows.length = blk.nprimary := by simp [hrows]
  have hmaplen : rows.map List.length = (rows.map (fun r => r.map Prod.fst)).map List.length :=
    (map_map_length rows Prod.fst).symm
  have hipt : ∀ k, k ≤ rows.length →
      (accIndptr (rows.map List.length)).getD k 0 = (((rows.map List.length).take k).sum) := by
    intro k hk
    rw [accIndptr_getD _ k (by simpa using hk)]
  show seg (rows.flatMap (fun r => r.map Prod.fst))
      ((accIndptr (rows.map List.length)).getD a 0)
      ((accIndptr (rows.map List.length)).getD (a + 1) 0) = _
  rw [hipt a (by omega), hipt (a + 1) (by omega), List.flatMap_def, hmaplen,
    seg_flatten (rows.map (fun r => r.map Prod.fst)) a (by simpa using (by omega : a < rows.length))]
  rw [getD_map_lt rows (fun r => r.map Prod.fst) [] [] a (by omega)]
  rw [hrows, getD_map_lt _ _ [] 0 a (by simpa using ha), getD_range_lt _ a ha]

theorem filter_rowEntries (blk : CSStorage) (S : List Nat) (a : Nat)
    (ha : a < blk.nprimary) :
    rowEntries (secondaryFilter blk S) a = filterRow S (rowEntries blk a) := by
  unfold rowEntries
  rw [filter_rowData blk S a ha, filter_rowIdx blk S a ha, List.zip_map']
  simp
  rfl

/-! ## Output-position remapping -/

theorem getD_mem (S : List Nat) (b : Nat) (hb : b < S.length) : S.getD b 0 ∈ S := by
  rw [List.getD_eq_getElem _ _ hb]
  exact List.getElem_mem hb

theorem posIn_getD_self (S : List Nat) (x : Nat) (hx : x ∈ S) :
    S.getD (posIn S x) 0 = x := by
  induction S with
  | nil => simp at hx
  | cons s rest ih =>
    unfold posIn
    by_cases h : s = x
    · simp [h]
    · rw [if_neg h, List.getD_cons_succ]
      apply ih
      rcases List.mem_cons.1 hx with h' | h'
      · exact absurd h'.symm h
      · exact h'

theorem posIn_of_getD (S : List Nat) (hnd : S.Nodup) (b : Nat) (hb : b < S.length) :
    posIn S (S.getD b 0) = b := by
  induction S generalizing b with
  | nil => simp at hb
  | cons s rest ih =>
    rcases List.nodup_cons.1 hnd with ⟨hs, hrest⟩
    cases b with
    | zero => simp [posIn]
    | succ b' =>
      rw [List.getD_cons_succ]
      unfold posIn
      have hb' : b' < rest.length := by simpa using hb
      have hne : s ≠ rest.getD b' 0 := by
        intro hc
        exact hs (hc ▸ getD_mem rest b' hb')
      rw [if_neg hne, ih hrest b' hb']

theorem posIn_cond_iff (S : List Nat) (hnd : S.Nodup) (b : Nat) (hb : b < S.length)
    (x : Nat) : (x ∈ S ∧ posIn S x = b) ↔ x = S.getD b 0 := by
  constructor
  · rintro ⟨hx, hp⟩
    rw [← hp, posIn_getD_self S x hx]
  · intro hx
    subst hx
    exact ⟨getD_mem S b hb, posIn_of_getD S hnd b hb⟩

theorem sum_filterRow (S : List Nat) (b : Nat) (es : List (Nat × Scalar)) :
    ((filterRow S es).map (fun e => if e.1 = b then e.2 else 0)).sum =
      (es.map (fun e => if e.1 ∈ S ∧ posIn S e.1 = b then e.2 else 0)).sum := by
  induction es with
  | nil => simp [filterRow]
  | cons e es ih =>
    by_cases h : e.1 ∈ S
    · simp only [filterRow, List.filter_cons, decide_eq_true h, if_true, List.map_cons,
        List.sum_cons] at *
      rw [ih]
      by_cases hp : posIn S e.1 = b
      · simp [hp, h]
      · simp [hp, h]
    · simp only [filterRow, List.filter_cons] at *
      rw [decide_eq_false h]
      simp only [Bool.false_eq_true, if_false, List.map_cons, List.sum_cons]
      rw [ih]
      simp [h]

/-! ## The sparse engine is correct: slicing then filtering then densifying
reads back the logical values -/

theorem slice_filter_value (st : CSStorage) (hv : validCS st) (P S : List Nat)
    (hP : ∀ p ∈ P, p < st.nprimary) (hS : S.Nodup) (a b : Nat)
    (ha : a < P.length) (hb : b < S.length) :
    csValue (secondaryFilter (slice_h5_sparse st P).1 S) a b =
      csValue st (P.getD a 0) (S.getD b 0) := by
  have hnp : (slice_h5_sparse st P).1.nprimary = P.length := rfl
  unfold csValue
  rw [filter_rowEntries _ S a (by rw [hnp]; exact ha),
    slice_rowEntries st hv P hP a ha, sum_filterRow S b]
  apply congrArg
  apply List.map_congr_left
  intro e _
  rw [if_congr (posIn_cond_iff S hS b hb e.1) rfl rfl]

/-! ## Reduction of `__getitem__` along each code path -/

theorem check_indices_ok (l : List Nat) (extent : Nat) (h : ∀ i ∈ l, i < extent) :
    check_indices (PySel.pyIdx l) extent = Except.ok l := by
  have hall : (l.all fun i => decide (i < extent)) = true := by
    rw [List.all_eq_true]
    intro x hx
    simpa using h x hx
  simp [check_indices, hall]

theorem check_indices_oob (l : List Nat) (extent : Nat) (h : ∃ i ∈ l, extent ≤ i) :
    check_indices (PySel.pyIdx l) extent = Except.error H5Err.indexOutOfBounds := by
  have hall : (l.all fun i => decide (i < extent)) = false := by
    obtain ⟨i, hi, hge⟩ := h
    apply List.all_eq_false.2
    exact ⟨i, hi, by simpa using hge⟩
  simp [check_indices, hall]

theorem colIndicesStep_one (p : PySel) (extent : Nat) :
    colIndicesStep [p] extent = Except.ok none := by
  unfold colIndicesStep
  simp

theorem colIndicesStep_none2 (p : PySel) (extent : Nat) (rest : List PySel) :
    colIndicesStep (p :: PySel.pyNone :: rest) extent = Except.ok none := by
  unfold colIndicesStep
  simp

theorem colIndicesStep_idx2 (p : PySel) (S : List Nat) (extent : Nat) (rest : List PySel)
    (hS : ∀ s ∈ S, s < extent) :
    colIndicesStep (p :: PySel.pyIdx S :: rest) extent = Except.ok (some S) := by
  unfold colIndicesStep
  simp [check_indices_ok S extent hS]

theorem colIndicesStep_idx2_oob (p : PySel) (S : List Nat) (extent : Nat) (rest : List PySel)
    (hS : ∃ s ∈ S, extent ≤ s) :
    colIndicesStep (p :: PySel.pyIdx S :: rest) extent =
      Except.error H5Err.indexOutOfBounds := by
  unfold colIndicesStep
  simp [check_indices_oob S extent hS]

theorem getitem_two_csr (A : H5SparseArray) (hfmt : A.dsFormat = "csr_matrix")
    (P S : List Nat) (hP : ∀ p ∈ P, p < A.dsShape.1) (hS : ∀ s ∈ S, s < A.dsShape.2) :
    getitem A [PySel.pyIdx P, PySel.pyIdx S] =
      (Except.ok { block := secondaryFilter (slice_h5_sparse A.store P).1 S,
                   byCol := false },
       (slice_h5_sparse A.store P).2) := by
  unfold getitem
  simp [H5SparseArray.shape, H5SparseArray.mat_format, hfmt,
    check_indices_ok P A.dsShape.1 hP, colIndicesStep_idx2 _ S A.dsShape.2 [] hS]

theorem getitem_two_csc (A : H5SparseArray) (hfmt : A.dsFormat = "csc_matrix")
    (P S : List Nat) (hP : ∀ p ∈ P, p < A.dsShape.1) (hS : ∀ s ∈ S, s < A.dsShape.2) :
    getitem A [PySel.pyIdx P, PySel.pyIdx S] =
      (Except.ok { block := secondaryFilter (slice_h5_sparse A.store S).1 P,
                   byCol := true },
       (slice_h5_sparse A.store S).2) := by
  unfold getitem
  simp [H5SparseArray.shape, H5SparseArray.mat_format, hfmt,
    check_indices_ok P A.dsShape.1 hP, colIndicesStep_idx2 _ S A.dsShape.2 [] hS]

theorem getitem_one_csr (A : H5SparseArray) (hfmt : A.dsFormat = "csr_matrix")
    (P : List Nat) (hP : ∀ p ∈ P, p < A.dsShape.1) :
    getitem A [PySel.pyIdx P] =
      (Except.ok { block := (slice_h5_sparse A.store P).1, byCol := false },
       (slice_h5_sparse A.store P).2) := by
  unfold getitem
  simp [H5SparseArray.shape, H5SparseArray.mat_format, hfmt,
    check_indices_ok P A.dsShape.1 hP, colIndicesStep_one]

theorem getitem_one_csc (A : H5SparseArray) (hfmt : A.dsFormat = "csc_matrix")
    (P : List Nat) (hP : ∀ p ∈ P, p < A.dsShape.1) :
    getitem A [PySel.pyIdx P] =
      (Except.ok { block := secondaryFilter (slice_h5_sparse A.store []).1 P,
                   byCol := true },
       (slice_h5_sparse A.store []).2) := by
  unfold getitem
  simp [H5SparseArray.shape, H5SparseArray.mat_format, hfmt,
    check_indices_ok P A.dsShape.1 hP, colIndicesStep_one]

theorem getitem_nil (A : H5SparseArray) :
    getitem A [] = (Except.error H5Err.emptyArgs, []) := by
  simp [getitem]

theorem getitem_rows_oob (A : H5SparseArray) (P : List Nat) (rest : List PySel)
    (h : ∃ p ∈ P, A.dsShape.1 ≤ p) :
    getitem A (PySel.pyIdx P :: rest) = (Except.error H5Err.indexOutOfBounds, []) := by
  unfold getitem
  simp [H5SparseArray.shape, check_indices_oob P A.dsShape.1 h]

theorem getitem_cols_oob (A : H5SparseArray) (P S : List Nat) (rest : List PySel)
    (hP : ∀ p ∈ P, p < A.dsShape.1) (hS : ∃ s ∈ S, A.dsShape.2 ≤ s) :
    getitem A (PySel.pyIdx P :: PySel.pyIdx S :: rest) =
      (Except.error H5Err.indexOutOfBounds, []) := by
  unfold getitem
  simp [H5SparseArray.shape, check_indices_ok P A.dsShape.1 hP,
    colIndicesStep_idx2_oob _ S A.dsShape.2 rest hS]

theorem check_indices_ne_tooMany (s : PySel) (extent : Nat) :
    check_indices s extent ≠ Except.error H5Err.tooManySlices := by
  cases s with
  | pyNone => simp [check_indices]
  | pyIdx l =>
    by_cases h : (l.all fun i => decide (i < extent)) = true
    · simp [check_indices, h]
    · simp [check_indices, h]

theorem check_indices_ne_unknown (s : PySel) (extent : Nat) :
    check_indices s extent ≠ Except.error H5Err.unknownMatrixType := by
  cases s with
  | pyNone => simp [check_indices]
  | pyIdx l =>
    by_cases h : (l.all fun i => decide (i < extent)) = true
    · simp [check_indices, h]
    · simp [check_indices, h]

theorem colIndicesStep_ne_tooMany (args : List PySel) (extent : Nat) :
    colIndicesStep args extent ≠ Except.error H5Err.tooManySlices := by
  unfold colIndicesStep
  by_cases h1 : args.length > 1
  · rw [if_pos h1]
    cases hg : args.getD 1 PySel.pyNone with
    | pyNone => simp
    | pyIdx l =>
      dsimp only
      cases hc : check_indices (PySel.pyIdx l) extent with
      | ok v => simp
      | error e =>
        intro hcontra
        apply check_indices_ne_tooMany (PySel.pyIdx l) extent
        rw [hc]
        injection hcontra with he
        rw [he]
  · rw [if_neg h1]
    have h2 : ¬ args.length > 2 := by omega
    rw [if_neg h2]
    simp

theorem colIndicesStep_ne_unknown (args : List PySel) (extent : Nat) :
    colIndicesStep args extent ≠ Except.error H5Err.unknownMatrixType := by
  unfold colIndicesStep
  by_cases h1 : args.length > 1
  · rw [if_pos h1]
    cases hg : args.getD 1 PySel.pyNone with
    | pyNone => simp
    | pyIdx l =>
      dsimp only
      cases hc : check_indices (PySel.pyIdx l) extent with
      | ok v => simp
      | error e =>
        intro hcontra
        apply check_indices_ne_unknown (PySel.pyIdx l) extent
        rw [hc]
        injection hcontra with he
        rw [he]
  · rw [if_neg h1]
    have h2 : ¬ args.length > 2 := by omega
    rw [if_neg h2]
    simp

theorem getitem_ne_tooMany (A : H5SparseArray) (args : List PySel) :
    (getitem A args).1 ≠ Except.error H5Err.tooManySlices := by
  unfold getitem
  by_cases h0 : args.length = 0
  · simp [h0]
  · rw [if_neg h0]
    cases hc : check_indices (args.getD 0 PySel.pyNone) A.shape.1 with
    | error e =>
      intro hcontra
      apply check_indices_ne_tooMany (args.getD 0 PySel.pyNone) A.shape.1
      rw [hc]
      dsimp only at hcontra
      injection hcontra with he
      rw [he]
    | ok rIdx =>
      dsimp only
      cases hcol : colIndicesStep args A.shape.2 with
      | error e =>
        intro hcontra
        apply colIndicesStep_ne_tooMany args A.shape.2
        rw [hcol]
        dsimp only at hcontra
        injection hcontra with he
        rw [he]
      | ok cIdx =>
        dsimp only
        by_cases hcsr : A.mat_format = "csr_matrix"
        · rw [if_pos hcsr]
          cases cIdx <;> simp
        · rw [if_neg hcsr]
          by_cases hcsc : A.mat_format = "csc_matrix"
          · rw [if_pos hcsc]
            simp
          · rw [if_neg hcsc]
            simp

theorem getitem_ne_unknown (A : H5SparseArray)
    (hfmt : A.dsFormat = "csr_matrix" ∨ A.dsFormat = "csc_matrix")
    (args : List PySel) :
    (getitem A args).1 ≠ Except.error H5Err.unknownMatrixType := by
  unfold getitem
  by_cases h0 : args.length = 0
  · simp [h0]
  · rw [if_neg h0]
    cases hc : check_indices (args.getD 0 PySel.pyNone) A.shape.1 with
    | error e =>
      intro hcontra
      apply check_indices_ne_unknown (args.getD 0 PySel.pyNone) A.shape.1
      rw [hc]
      dsimp only at hcontra
      injection hcontra with he
      rw [he]
    | ok rIdx =>
      dsimp only
      cases hcol : colIndicesStep args A.shape.2 with
      | error e =>
        intro hcontra
        apply colIndicesStep_ne_unknown args A.shape.2
        rw [hcol]
        dsimp only at hcontra
        injection hcontra with he
        rw [he]
      | ok cIdx =>
        dsimp only
        by_cases hcsr : A.mat_format = "csr_matrix"
        · rw [if_pos hcsr]
          cases cIdx <;> simp
        · rw [if_neg hcsr]
          have hcsc : A.mat_format = "csc_matrix" := by
            rcases hfmt with h | h
            · exact absurd h hcsr
            · exact h
          rw [if_pos hcsc]
          simp

/-! ## The dense array engine (`Hdf5DenseArray`), modelled from the spec -/

/-- Modelled from the spec: the physical dense dataset backing an
`Hdf5DenseArray` (the class itself is not under the provided sources) — a
row-major rectangular array with its physical shape. -/
structure DenseStorage where
  mat : List (List Scalar)
  nrows : Nat
  ncols : Nat
deriving DecidableEq, Repr

/-- Rectangularity of the physical dense dataset. -/
def validDense (st : DenseStorage) : Prop :=
  st.mat.length = st.nrows ∧ ∀ r ∈ st.mat, r.length = st.ncols

instance (st : DenseStorage) : Decidable (validDense st) := by
  unfold validDense; infer_instance

/-- The physical element at (row `i`, column `j`) of the dense dataset. -/
def denseEntry (st : DenseStorage) (i j : Nat) : Scalar :=
  (st.mat.getD i []).getD j 0

/-- Modelled from the spec: the `Hdf5DenseArray` object — the open dataset
plus the `native_order` flag fixed at construction (spec §4.4). -/
structure H5DenseArray where
  store : DenseStorage
  native_order : Bool
deriving DecidableEq, Repr

/-- Modelled from the spec (§4.4): `shape` presents the physical shape, with
axes reversed when `native_order` is false. -/
def H5DenseArray.shape (A : H5DenseArray) : Nat × Nat :=
  if A.native_order then (A.store.nrows, A.store.ncols)
  else (A.store.ncols, A.store.nrows)

/-- A physical (gather) read of the dense dataset over per-axis physical
selections, in physical axis order. -/
def physRead (st : DenseStorage) (sel0 sel1 : List Nat) : List (List Scalar) :=
  sel0.map (fun i => sel1.map (fun j => denseEntry st i j))

/-- Transpose of a read block with the given column count. -/
def transposeBlock (m : List (List Scalar)) (cols : Nat) : List (List Scalar) :=
  (List.range cols).map (fun j => m.map (fun row => row.getD j 0))

/-- Modelled from the spec (§4.4): `extract_dense` of `Hdf5DenseArray` (not
under the provided sources).  Under native order the logical selections are
read directly; otherwise the incoming per-axis selections are reversed to map
logical axis order back onto physical axis order, the physical block is read,
and the result is transposed back to logical order. -/
def extract_dense (A : H5DenseArray) (sel0 sel1 : List Nat) : List (List Scalar) :=
  if A.native_order then physRead A.store sel0 sel1
  else transposeBlock (physRead A.store sel1 sel0) sel0.length

/-! ## Concrete arrays used as witnesses and counterexamples.
Both sparse examples store the logical 2×3 matrix [[1,0,2],[0,3,0]]. -/

/-- Row-compressed example: shape (2,3), rows [1,0,2] and [0,3,0]. -/
def csrExample : H5SparseArray :=
  { store := { data := [1, 2, 3], indices := [0, 2, 1], indptr := [0, 2, 3],
               nprimary := 2, nsecondary := 3 },
    dsFormat := "csr_matrix", dsShape := (2, 3) }

/-- Column-compressed example of the same logical matrix: columns [1,0],
[0,3], [2,0]. -/
def cscExample : H5SparseArray :=
  { store := { data := [1, 3, 2], indices := [0, 1, 0], indptr := [0, 1, 2, 3],
               nprimary := 3, nsecondary := 2 },
    dsFormat := "csc_matrix", dsShape := (2, 3) }

/-- A dataset info whose inferred format is dense (not a compressed-sparse
layout). -/
def denseInfoExample : H5DatasetInfo :=
  { format := "dense", shape := (2, 3),
    store := { data := [], indices := [], indptr := [0], nprimary := 0,
               nsecondary := 0 } }

/-- The column extent of an extraction result, `none` on error. -/
def colsOfRes (r : Except H5Err SpResult) : Option Nat :=
  match r with
  | Except.ok v => some v.cols
  | Except.error _ => none

/-- Whether an extraction outcome is the too-many-slices error. -/
def isTooManySlicesRes (r : Except H5Err SpResult) : Bool :=
  match r with
  | Except.error H5Err.tooManySlices => true
  | _ => false

/-- Whether an extraction outcome is the unknown-matrix-type error. -/
def isUnknownMatrixRes (r : Except H5Err SpResult) : Bool :=
  match r with
  | Except.error H5Err.unknownMatrixType => true
  | _ => false

/-- Whether an extraction outcome is a successful result. -/
def isOkRes (r : Except H5Err SpResult) : Bool :=
  match r with
  | Except.ok _ => true
  | _ => false

/-! ## Claim theorems -/

/-- C10: for every constructed `H5SparseArray`, calling `__getitem__` with an
empty tuple of axis selectors always raises
`ValueError("Arguments must contain one slice")` (and performs no read); the
sparse subscript operation never treats zero selectors as a full-array
extraction. -/
theorem claim_C10_empty_selector_tuple (A : H5SparseArray) :
    getitem A [] = (Except.error H5Err.emptyArgs, []) :=
  getitem_nil A

/-- Every object returned by `__init__` carries one of the two recognized
format tags. -/
theorem h5sparse_init_format (info : H5DatasetInfo) (A : H5SparseArray)
    (hA : h5sparse_init info = Except.ok A) :
    A.dsFormat = "csr_matrix" ∨ A.dsFormat = "csc_matrix" := by
  unfold h5sparse_init at hA
  by_cases hmem : info.format ∈ (["csr_matrix", "csc_matrix"] : List String)
  · rw [if_pos hmem] at hA
    injection hA with hA'
    rw [← hA']
    simpa using hmem
  · rw [if_neg hmem] at hA
    cases hA

/-- C5: construction fails with the unsupported-layout error exactly when the
inferred format is neither `csr_matrix` nor `csc_matrix`; every object that
completes construction carries one of the two recognized formats. -/
theorem claim_C5_layout_checked_at_construction (info : H5DatasetInfo) :
    (info.format ≠ "csr_matrix" ∧ info.format ≠ "csc_matrix" →
      h5sparse_init info = Except.error H5Err.unsupportedLayout) ∧
    (∀ A : H5SparseArray, h5sparse_init info = Except.ok A →
      A.dsFormat = "csr_matrix" ∨ A.dsFormat = "csc_matrix") := by
  constructor
  · rintro ⟨h1, h2⟩
    unfold h5sparse_init
    rw [if_neg]
    intro hc
    rcases List.mem_cons.1 hc with h | h
    · exact h1 h
    · rcases List.mem_cons.1 h with h' | h'
      · exact h2 h'
      · simp at h'
  · exact h5sparse_init_format info

/-- Witness for C5 at a concrete dense-format dataset info. -/
theorem claim_C5_witness :
    h5sparse_init denseInfoExample = Except.error H5Err.unsupportedLayout :=
  (claim_C5_layout_checked_at_construction denseInfoExample).1 (by decide)

/-- C4: an extraction call with a requested index outside `[0, axis_extent)`
on either axis raises the index-out-of-bounds error, and the trace of
physical reads at that point is empty (no physical read precedes the
error). -/
theorem claim_C4_out_of_bounds_no_read (A : H5SparseArray) (P S : List Nat) :
    ((∃ p ∈ P, A.dsShape.1 ≤ p) →
      getitem A [PySel.pyIdx P] = (Except.error H5Err.indexOutOfBounds, [])) ∧
    ((∃ p ∈ P, A.dsShape.1 ≤ p) ∨ (∃ s ∈ S, A.dsShape.2 ≤ s) →
      getitem A [PySel.pyIdx P, PySel.pyIdx S] =
        (Except.error H5Err.indexOutOfBounds, [])) := by
  constructor
  · intro h
    exact getitem_rows_oob A P [] h
  · intro h
    by_cases hP : ∀ p ∈ P, p < A.dsShape.1
    · have hs : ∃ s ∈ S, A.dsShape.2 ≤ s := by
        rcases h with h | h
        · obtain ⟨p, hp, hge⟩ := h
          have := hP p hp
          omega
        · exact h
      exact getitem_cols_oob A P S [] hP hs
    · push_neg at hP
      obtain ⟨p, hp, hge⟩ := hP
      exact getitem_rows_oob A P [PySel.pyIdx S] ⟨p, hp, by omega⟩

/-- Witness for C4: requesting row 5 of the 2×3 example errors with an empty
read trace. -/
theorem claim_C4_witness :
    getitem csrExample [PySel.pyIdx [5]] =
      (Except.error H5Err.indexOutOfBounds, []) :=
  (claim_C4_out_of_bounds_no_read csrExample [5] []).1 (by decide)

/-- C3 (code bug evidence): the too-many-slices error is unreachable — no
call of `__getitem__` ever returns it — and a concrete three-selector call on
a 2-D matrix succeeds, silently ignoring the third selector (it equals the
two-selector call).  The `elif len(args) > 2` test at line 84 of
`H5Sparse.py` is tested only when `len(args) > 1` is already false. -/
theorem claim_C3_too_many_selectors_unreachable :
    (∀ (A : H5SparseArray) (args : List PySel),
      isTooManySlicesRes (getitem A args).1 = false) ∧
    getitem csrExample [PySel.pyIdx [0], PySel.pyIdx [0], PySel.pyIdx [0]] =
      getitem csrExample [PySel.pyIdx [0], PySel.pyIdx [0]] ∧
    isOkRes (getitem csrExample
      [PySel.pyIdx [0], PySel.pyIdx [0], PySel.pyIdx [0]]).1 = true := by
  refine ⟨?_, by decide, by decide⟩
  intro A args
  cases hr : (getitem A args).1 with
  | ok v => rfl
  | error e =>
    cases e with
    | tooManySlices => exact absurd hr (getitem_ne_tooMany A args)
    | unsupportedLayout => rfl
    | emptyArgs => rfl
    | indexOutOfBounds => rfl
    | noneSelector => rfl
    | unknownMatrixType => rfl

/-- C9: every object produced by `__init__` has `mat_format` equal to
`"csr_matrix"` or `"csc_matrix"` (the format is recorded once at construction
and the structure is immutable), so the final `else` branch of `__getitem__`
that raises the unknown-matrix-type exception is unreachable on every
constructed object. -/
theorem claim_C9_unknown_branch_unreachable (info : H5DatasetInfo)
    (A : H5SparseArray) (hinit : h5sparse_init info = Except.ok A)
    (args : List PySel) :
    (A.mat_format = "csr_matrix" ∨ A.mat_format = "csc_matrix") ∧
    isUnknownMatrixRes (getitem A args).1 = false := by
  have hfmt : A.dsFormat = "csr_matrix" ∨ A.dsFormat = "csc_matrix" :=
    h5sparse_init_format info A hinit
  refine ⟨hfmt, ?_⟩
  cases hr : (getitem A args).1 with
  | ok v => rfl
  | error e =>
    cases e with
    | unknownMatrixType => exact absurd hr (getitem_ne_unknown A hfmt args)
    | unsupportedLayout => rfl
    | emptyArgs => rfl
    | indexOutOfBounds => rfl
    | noneSelector => rfl
    | tooManySlices => rfl

/-- Witness for C9 at a concrete constructed object and call. -/
theorem claim_C9_witness :
    (csrExample.mat_format = "csr_matrix" ∨ csrExample.mat_format = "csc_matrix") ∧
    isUnknownMatrixRes (getitem csrExample [PySel.pyIdx [0]]).1 = false :=
  claim_C9_unknown_branch_unreachable
    { format := "csr_matrix", shape := (2, 3), store := csrExample.store }
    csrExample rfl [PySel.pyIdx [0]]

/-- Each run contributes exactly one `indptr`-range read to the trace. -/
theorem countReadPairs_pairs (st : CSStorage) (rs : List (Nat × Nat)) :
    countReadPairs (rs.flatMap (fun r =>
      [ReadEvent.indptrRead r.1 (r.2 + 1),
       ReadEvent.dataIndicesRead (ipt st r.1) (ipt st (r.2 + 1))])) = rs.length := by
  induction rs with
  | nil => rfl
  | cons r rest ih =>
    rw [List.flatMap_cons]
    unfold countReadPairs at *
    rw [List.filter_append, List.length_append, ih]
    simp [List.filter_cons]
    omega

/-- C8: the sparse extraction issues exactly one physical read pair (one
`indptr` range read, then one `data`+`indices` range read) per maximal
contiguous run of the primary selection `P`: the trace is literally one pair
per run, the runs partition `P`, the number of pairs is bounded by `|P|`, and
a fully contiguous nonempty `P` costs exactly one pair regardless of its
length. -/
theorem claim_C8_run_batched_reads (st : CSStorage) (P : List Nat) :
    (slice_h5_sparse st P).2 = (runs P).flatMap (fun r =>
      [ReadEvent.indptrRead r.1 (r.2 + 1),
       ReadEvent.dataIndicesRead (ipt st r.1) (ipt st (r.2 + 1))]) ∧
    countReadPairs (slice_h5_sparse st P).2 = (runs P).length ∧
    runsFlat (runs P) = P ∧
    (runs P).length ≤ P.length ∧
    (∀ lo n, 0 < n → P = List.range' lo n →
      countReadPairs (slice_h5_sparse st P).2 = 1) := by
  refine ⟨rfl, countReadPairs_pairs st (runs P), runs_flat P, runs_length_le P, ?_⟩
  intro lo n hn hPr
  have h2 : countReadPairs (slice_h5_sparse st P).2 = (runs P).length :=
    countReadPairs_pairs st (runs P)
  rw [h2, hPr, runs_contiguous lo n hn]
  rfl

/-- Witness for C8: the contiguous selection `[2,3,4]` of a 5-row store costs
one read pair. -/
theorem claim_C8_witness :
    countReadPairs (slice_h5_sparse csrExample.store [2, 3, 4]).2 = 1 :=
  (claim_C8_run_batched_reads csrExample.store [2, 3, 4]).2.2.2.2 2 3
    (by decide) rfl

/-- C1: for every valid (in-bounds, deduplicated) row selection `P` and
column selection `S`, and for both the row-compressed and column-compressed
layouts, `__getitem__` succeeds and its densified result equals the dense
extraction of the same logical array over `(P, S)`. -/
theorem claim_C1_sparse_dense_agree (A : H5SparseArray) (hA : wfSparse A)
    (P S : List Nat) (hP : ∀ p ∈ P, p < A.dsShape.1) (hS : ∀ s ∈ S, s < A.dsShape.2)
    (hPn : P.Nodup) (hSn : S.Nodup) :
    ∃ res tr, getitem A [PySel.pyIdx P, PySel.pyIdx S] = (Except.ok res, tr) ∧
      res.rows = P.length ∧ res.cols = S.length ∧
      ∀ a b, a < P.length → b < S.length →
        res.valueAt a b = ((extract_dense_ref A P S).getD a []).getD b 0 := by
  obtain ⟨hv, hdisj⟩ := hA
  have href : ∀ a b, a < P.length → b < S.length →
      ((extract_dense_ref A P S).getD a []).getD b 0 =
        logicalValue A (P.getD a 0) (S.getD b 0) := by
    intro a b ha hb
    unfold extract_dense_ref
    rw [getD_map_lt P _ [] 0 a ha, getD_map_lt S _ 0 0 b hb]
  rcases hdisj with ⟨hf, hnp, hns⟩ | ⟨hf, hnp, hns⟩
  · refine ⟨_, _, getitem_two_csr A hf P S hP hS, rfl, rfl, ?_⟩
    intro a b ha hb
    rw [href a b ha hb]
    show csValue (secondaryFilter (slice_h5_sparse A.store P).1 S) a b = _
    rw [slice_filter_value A.store hv P S (by rw [hnp]; exact hP) hSn a b ha hb]
    unfold logicalValue
    rw [if_pos hf]
  · refine ⟨_, _, getitem_two_csc A hf P S hP hS, rfl, rfl, ?_⟩
    intro a b ha hb
    rw [href a b ha hb]
    show csValue (secondaryFilter (slice_h5_sparse A.store S).1 P) b a = _
    rw [slice_filter_value A.store hv S P (by rw [hnp]; exact hS) hPn b a hb ha]
    unfold logicalValue
    rw [if_neg (by rw [hf]; decide)]

/-- Witness for C1 at the concrete row-compressed example. -/
theorem claim_C1_witness :
    ∃ res tr, getitem csrExample [PySel.pyIdx [0, 1], PySel.pyIdx [0, 2]] =
        (Except.ok res, tr) ∧
      res.rows = ([0, 1] : List Nat).length ∧
      res.cols = ([0, 2] : List Nat).length ∧
      ∀ a b, a < ([0, 1] : List Nat).length → b < ([0, 2] : List Nat).length →
        res.valueAt a b =
          ((extract_dense_ref csrExample [0, 1] [0, 2]).getD a []).getD b 0 :=
  claim_C1_sparse_dense_agree csrExample (by decide) [0, 1] [0, 2]
    (by decide) (by decide) (by decide) (by decide)

/-- Densified values of the sliced block without secondary filtering. -/
theorem slice_value (st : CSStorage) (hv : validCS st) (P : List Nat)
    (hP : ∀ p ∈ P, p < st.nprimary) (a b : Nat) (ha : a < P.length) :
    csValue (slice_h5_sparse st P).1 a b = csValue st (P.getD a 0) b := by
  unfold csValue
  rw [slice_rowEntries st hv P hP a ha]

/-- C2 counterexample: on the column-compressed example (3 columns), calling
`__getitem__` with a row selection and an absent column selection returns a
result with 0 columns, not all 3 — the `slice(0)` sentinel substituted by the
csc branch selects nothing. -/
theorem claim_C2_counterexample :
    colsOfRes (getitem cscExample [PySel.pyIdx [0]]).1 = some 0 ∧
    cscExample.shape.2 = 3 := by
  constructor
  · decide
  · decide

/-- C2 as amended: with an absent (omitted or `None`) column selection, the
row-compressed path returns the selected rows over every column unchanged,
but the column-compressed path substitutes the empty-range sentinel
`slice(0)` and returns the selected rows over zero columns; omitting the
second selector and passing `None` are interchangeable. -/
theorem claim_C2_amended_absent_secondary (A : H5SparseArray) (hA : wfSparse A)
    (P : List Nat) (hP : ∀ p ∈ P, p < A.dsShape.1) :
    (A.dsFormat = "csr_matrix" →
      ∃ res tr, getitem A [PySel.pyIdx P] = (Except.ok res, tr) ∧
        res.rows = P.length ∧ res.cols = A.dsShape.2 ∧
        ∀ a b, a < P.length →
          res.valueAt a b = logicalValue A (P.getD a 0) b) ∧
    (A.dsFormat = "csc_matrix" →
      ∃ res tr, getitem A [PySel.pyIdx P] = (Except.ok res, tr) ∧
        res.rows = P.length ∧ res.cols = 0) ∧
    getitem A [PySel.pyIdx P, PySel.pyNone] = getitem A [PySel.pyIdx P] := by
  obtain ⟨hv, hdisj⟩ := hA
  refine ⟨?_, ?_, ?_⟩
  · intro hf
    obtain ⟨-, hnp, hns⟩ : A.dsFormat = "csr_matrix" ∧ A.store.nprimary = A.dsShape.1 ∧
        A.store.nsecondary = A.dsShape.2 := by
      rcases hdisj with h | ⟨hf', -, -⟩
      · exact h
      · rw [hf] at hf'
        exact absurd hf' (by decide)
    refine ⟨_, _, getitem_one_csr A hf P hP, rfl, hns, ?_⟩
    intro a b ha
    show csValue (slice_h5_sparse A.store P).1 a b = _
    rw [slice_value A.store hv P (by rw [hnp]; exact hP) a b ha]
    unfold logicalValue
    rw [if_pos hf]
  · intro hf
    refine ⟨_, _, getitem_one_csc A hf P hP, rfl, rfl⟩
  · unfold getitem
    rw [colIndicesStep_none2 (PySel.pyIdx P) A.shape.2 [], colIndicesStep_one (PySel.pyIdx P) A.shape.2]
    simp

/-- Witness for the amended C2: omitted and `None` second selectors agree on
the concrete example. -/
theorem claim_C2_witness :
    getitem csrExample [PySel.pyIdx [0], PySel.pyNone] =
      getitem csrExample [PySel.pyIdx [0]] :=
  (claim_C2_amended_absent_secondary csrExample (by decide) [0] (by decide)).2.2

/-- C6: an extraction whose selection on one axis is empty succeeds and
returns a block of extent 0 on that axis; when the empty selection is on the
primary (compressed) axis, the returned block has an all-zero `indptr` and no
data elements. -/
theorem claim_C6_empty_selection (A : H5SparseArray) (hA : wfSparse A)
    (P S : List Nat) (hP : ∀ p ∈ P, p < A.dsShape.1)
    (hS : ∀ s ∈ S, s < A.dsShape.2) :
    (∃ res tr, getitem A [PySel.pyIdx [], PySel.pyIdx S] = (Except.ok res, tr) ∧
      res.rows = 0) ∧
    (∃ res tr, getitem A [PySel.pyIdx P, PySel.pyIdx []] = (Except.ok res, tr) ∧
      res.cols = 0) ∧
    (A.dsFormat = "csr_matrix" →
      ∃ res tr, getitem A [PySel.pyIdx [], PySel.pyIdx S] = (Except.ok res, tr) ∧
        res.block.data = [] ∧ ∀ x ∈ res.block.indptr, x = 0) ∧
    (A.dsFormat = "csc_matrix" →
      ∃ res tr, getitem A [PySel.pyIdx P, PySel.pyIdx []] = (Except.ok res, tr) ∧
        res.block.data = [] ∧ ∀ x ∈ res.block.indptr, x = 0) := by
  have hPnil : ∀ p ∈ ([] : List Nat), p < A.dsShape.1 := by simp
  have hSnil : ∀ s ∈ ([] : List Nat), s < A.dsShape.2 := by simp
  refine ⟨?_, ?_, ?_, ?_⟩
  · rcases hA.2 with ⟨hf, -, -⟩ | ⟨hf, -, -⟩
    · exact ⟨_, _, getitem_two_csr A hf [] S hPnil hS, rfl⟩
    · exact ⟨_, _, getitem_two_csc A hf [] S hPnil hS, rfl⟩
  · rcases hA.2 with ⟨hf, -, -⟩ | ⟨hf, -, -⟩
    · exact ⟨_, _, getitem_two_csr A hf P [] hP hSnil, rfl⟩
    · exact ⟨_, _, getitem_two_csc A hf P [] hP hSnil, rfl⟩
  · intro hf
    refine ⟨_, _, getitem_two_csr A hf [] S hPnil hS, rfl, ?_⟩
    intro x hx
    have h0 : (secondaryFilter (slice_h5_sparse A.store []).1 S).indptr = [0] := rfl
    rw [h0] at hx
    exact List.mem_singleton.1 hx
  · intro hf
    refine ⟨_, _, getitem_two_csc A hf P [] hP hSnil, rfl, ?_⟩
    intro x hx
    have h0 : (secondaryFilter (slice_h5_sparse A.store []).1 P).indptr = [0] := rfl
    rw [h0] at hx
    exact List.mem_singleton.1 hx

/-- Witness for C6: empty row selection on the concrete example returns zero
rows. -/
theorem claim_C6_witness :
    ∃ res tr, getitem csrExample [PySel.pyIdx [], PySel.pyIdx [0]] =
      (Except.ok res, tr) ∧ res.rows = 0 :=
  (claim_C6_empty_selection csrExample (by decide) [0] [0]
    (by decide) (by decide)).1

/-- Entry of a transposed block. -/
theorem transposeBlock_entry (m : List (List Scalar)) (cols x y : Nat)
    (hx : x < cols) (hy : y < m.length) :
    ((transposeBlock m cols).getD x []).getD y 0 = (m.getD y []).getD x 0 := by
  unfold transposeBlock
  rw [getD_map_lt (List.range cols) _ [] 0 x (by simpa using hx),
    getD_range_lt cols x hx, getD_map_lt m _ 0 [] y hy]

/-- Entry of a physical gather read. -/
theorem physRead_entry (st : DenseStorage) (s0 s1 : List Nat) (i j : Nat)
    (hi : i < s0.length) (hj : j < s1.length) :
    ((physRead st s0 s1).getD i []).getD j 0 =
      denseEntry st (s0.getD i 0) (s1.getD j 0) := by
  unfold physRead
  rw [getD_map_lt s0 _ [] 0 i hi, getD_map_lt s1 _ 0 0 j hj]

theorem getD_range'_lt (s n i : Nat) (h : i < n) :
    (List.range' s n).getD i 0 = s + i := by
  rw [List.getD_eq_getElem _ _ (by simpa using h)]
  simp [List.getElem_range']

/-- C7: a dense array opened with `native_order = false` over a physical
`(r, c)` array reports shape `(c, r)`, and its extraction over
`(range(a,b), range(c,d))` equals the transpose of the `native_order = true`
extraction of the same physical array over `(range(c,d), range(a,b))`; each
logical entry `(x, y)` is the physical entry at `(c + y, a + x)`. -/
theorem claim_C7_dense_transposed_view (st : DenseStorage) (a b c d : Nat) :
    H5DenseArray.shape { store := st, native_order := false } =
      (st.ncols, st.nrows) ∧
    extract_dense { store := st, native_order := false }
        (List.range' a (b - a)) (List.range' c (d - c)) =
      transposeBlock (extract_dense { store := st, native_order := true }
          (List.range' c (d - c)) (List.range' a (b - a)))
        (List.range' a (b - a)).length ∧
    ∀ x y, x < b - a → y < d - c →
      ((extract_dense { store := st, native_order := false }
          (List.range' a (b - a)) (List.range' c (d - c))).getD x []).getD y 0 =
        denseEntry st (c + y) (a + x) := by
  refine ⟨rfl, rfl, ?_⟩
  intro x y hx hy
  show ((transposeBlock
      (physRead st (List.range' c (d - c)) (List.range' a (b - a)))
      (List.range' a (b - a)).length).getD x []).getD y 0 = _
  rw [transposeBlock_entry _ _ x y (by simpa using hx) (by simp [physRead]; omega)]
  rw [physRead_entry st _ _ y x (by simpa using hy) (by simpa using hx)]
  rw [getD_range'_lt c (d - c) y hy, getD_range'_lt a (b - a) x hx]

/-- A concrete physical 2×3 dense dataset. -/
def denseExample : DenseStorage :=
  { mat := [[1, 2, 3], [4, 5, 6]], nrows := 2, ncols := 3 }

/-- Witness for C7 at the concrete dense dataset. -/
theorem claim_C7_witness :
    H5DenseArray.shape { store := denseExample, native_order := false } = (3, 2) ∧
    ((extract_dense { store := denseExample, native_order := false }
        (List.range' 0 2) (List.range' 0 2)).getD 1 []).getD 1 0 =
      denseEntry denseExample 1 1 := by
  have h := claim_C7_dense_transposed_view denseExample 0 2 0 2
  refine ⟨h.1, ?_⟩
  have h3 := h.2.2 1 1 (by decide) (by decide)
  simpa using h3
